import Mathlib

/-!
# Verification of the ephemeral object-storage core (`app.py`)

Shallow embedding of the metadata-store / placement / expiry-lifecycle core
of the service.  The JSON metadata file (`{"files": {...}, "stats": {...}}`)
is modelled as a pair of association lists (Python dicts preserve insertion
order: updating an existing key keeps its position, a new key is appended,
`del` removes the entry — `insertA` / `eraseA` below implement exactly that).
Timestamps are modelled as integers (seconds); the source stores ISO-8601
UTC strings whose lexicographic order agrees with chronological order.
Object handles (`uuid.uuid4()` strings) are modelled as naturals drawn from
a fresh counter carried in the system state, capturing that a handle is
never reused.  The filesystem is modelled as the set (list) of
`(volume, handle)` pairs currently present; `open(path, "wb")` creates the
file, `os.remove` deletes it and may fail (an `OSError` oracle), and the
chunked upload loop may hit an `IOError` on a given chunk index (a `failAt`
oracle).  Each definition mirrors the Python function of the same name.
-/

section AssocList

variable {α β : Type} [DecidableEq α]

/-- First-match lookup in an association list (Python `d.get(k)` / `d[k]`). -/
def lookupA (k : α) : List (α × β) → Option β
  | [] => none
  | kv :: rest => if kv.1 = k then some kv.2 else lookupA k rest

/-- Python `d[k] = v`: replace in place if the key is present, else append. -/
def insertA (k : α) (v : β) : List (α × β) → List (α × β)
  | [] => [(k, v)]
  | kv :: rest => if kv.1 = k then (k, v) :: rest else kv :: insertA k v rest

/-- Python `del d[k]`: remove the (unique) entry with the given key. -/
def eraseA (k : α) : List (α × β) → List (α × β)
  | [] => []
  | kv :: rest => if kv.1 = k then rest else kv :: eraseA k rest

end AssocList

/-- One file on a volume: the pair `(storage_path, file_id)`. -/
abbrev DiskEntry : Type := String × Nat

/-- Model of `os.remove`: delete the file from the volume (no-op when absent). -/
def removeFile (x : DiskEntry) (d : List DiskEntry) : List DiskEntry :=
  d.filter (fun y => decide ¬(y = x))

/-- Model of `open(path, "wb")`: the file exists afterwards (created or truncated). -/
def touchFile (x : DiskEntry) (d : List DiskEntry) : List DiskEntry :=
  if x ∈ d then d else x :: d

/-- Configuration constants from the top of `app.py`. -/
def STORAGE_PATHS : List String := ["/storage", "/storage2", "/storage3"]

def MAX_FILE_SIZE : Nat := 5 * 1024 * 1024 * 1024

def DEFAULT_EXPIRY : Int := 24 * 60 * 60

/-- The per-object metadata dictionary persisted under `db["files"][file_id]`. -/
structure FileData where
  id : Nat
  original_name : String
  size : Nat
  content_type : String
  storage_path : String
  expires_at : Int
  uploaded_at : Int
deriving DecidableEq

/-- The JSON database: `{"files": {...}, "stats": {...}}`. -/
structure DB where
  files : List (Nat × FileData)
  stats : List (String × Int)
deriving DecidableEq

/-- Whole-system state: metadata database, filesystem contents, and the
fresh-handle counter standing in for `uuid.uuid4()`. -/
structure Sys where
  db : DB
  disk : List DiskEntry
  nextId : Nat
deriving DecidableEq

namespace DB

/-- Method `FileDatabase.add_file`: store the record and bump the volume's counter. -/
def add_file (db : DB) (file_id : Nat) (file_data : FileData) : DB :=
  { files := insertA file_id file_data db.files
    stats := insertA file_data.storage_path
      ((lookupA file_data.storage_path db.stats).getD 0 + 1) db.stats }

/-- Method `FileDatabase.get_file`. -/
def get_file (db : DB) (file_id : Nat) : Option FileData :=
  lookupA file_id db.files

/-- Method `FileDatabase.delete_file`: drop the record; decrement the volume's
counter and delete the counter entry once it reaches zero or below. -/
def delete_file (db : DB) (file_id : Nat) : DB × Bool :=
  match lookupA file_id db.files with
  | none => (db, false)
  | some file_data =>
    let sp := file_data.storage_path
    let stats' :=
      match lookupA sp db.stats with
      | none => db.stats
      | some c => if c - 1 ≤ 0 then eraseA sp db.stats else insertA sp (c - 1) db.stats
    ({ files := eraseA file_id db.files, stats := stats' }, true)

/-- Method `FileDatabase.get_expired_files`: ids of records with `expires_at < now`. -/
def get_expired_files (db : DB) (now : Int) : List Nat :=
  (db.files.filter (fun kv => decide (kv.2.expires_at < now))).map Prod.fst

/-- Method `FileDatabase.get_storage_stats`. -/
def get_storage_stats (db : DB) : List (String × Int) :=
  db.stats

end DB

/-- Python `stats.get(path, 0)`: counter value with an absent entry meaning zero. -/
def statsGet (stats : List (String × Int)) (p : String) : Int :=
  (lookupA p stats).getD 0

/-- Python `min(items, key=lambda x: x[1])`: left fold keeping the current
best and replacing it only on a strictly smaller key, so the first minimum
in iteration order wins. -/
def minPair (best : String × Int) : List (String × Int) → String × Int
  | [] => best
  | x :: xs => minPair (if x.2 < best.2 then x else best) xs

/-- Function `select_storage_path`: volume with the least files (ties: list order). -/
def select_storage_path (stats : List (String × Int)) : String :=
  match STORAGE_PATHS.map (fun p => (p, statsGet stats p)) with
  | [] => ""
  | x :: xs => (minPair x xs).1

inductive UploadError
  | TooLarge
  | StorageError
deriving DecidableEq

/-- The chunked write loop of `upload_file`: accumulate `file_size`, abort
with `TooLarge` as soon as it exceeds the maximum (before writing the
offending chunk), and raise `StorageError` when the `IOError` oracle fires
on the current chunk index. -/
def write_chunks (failAt : Option Nat) : List Nat → Nat → Nat → Except UploadError Nat
  | [], _, file_size => .ok file_size
  | c :: cs, i, file_size =>
    let fs := file_size + c
    if MAX_FILE_SIZE < fs then .error .TooLarge
    else if failAt = some i then .error .StorageError
    else write_chunks failAt cs (i + 1) fs

/-- Check `file.size and file.size > MAX_FILE_SIZE`: the declared hint is rejected
upfront only when it is truthy (present and nonzero) and over the limit. -/
def size_hint_too_large (hint : Option Nat) : Bool :=
  match hint with
  | some sz => decide (0 < sz) && decide (MAX_FILE_SIZE < sz)
  | none => false

/-- Handler `upload_file` (POST /api/files).  `now1` is the `datetime.utcnow()` read
at the `expires_at` computation (before streaming), `now2` the one taken for
`uploaded_at` (after streaming).  On the in-stream `TooLarge` path the
partial file is removed before raising; on the `IOError` path the handler
re-raises a storage error without touching the partial file; on success the
record is persisted and the counter bumped via `add_file`. -/
def upload_file (s : Sys) (chunks : List Nat) (failAt : Option Nat)
    (hint : Option Nat) (expires_in : Int) (now1 now2 : Int)
    (fname ctype : String) : Except UploadError FileData × Sys :=
  if size_hint_too_large hint then (.error .TooLarge, s)
  else
    let storage_path := select_storage_path s.db.get_storage_stats
    let file_id := s.nextId
    let expires_at := now1 + expires_in
    let disk1 := touchFile (storage_path, file_id) s.disk
    match write_chunks failAt chunks 0 0 with
    | .error .TooLarge =>
      (.error .TooLarge,
        { s with disk := removeFile (storage_path, file_id) disk1, nextId := s.nextId + 1 })
    | .error .StorageError =>
      (.error .StorageError, { s with disk := disk1, nextId := s.nextId + 1 })
    | .ok file_size =>
      let file_data : FileData :=
        { id := file_id, original_name := fname, size := file_size
          content_type := ctype, storage_path := storage_path
          expires_at := expires_at, uploaded_at := now2 }
      (.ok file_data,
        { s with db := s.db.add_file file_id file_data, disk := disk1
                 nextId := s.nextId + 1 })

inductive DownloadError
  | NotFound
  | Expired
deriving DecidableEq

/-- Handler `download_file` (GET download endpoint): 404 when the record is
absent, 410 when `expires_at < now`, 404 again when the backing file is
missing from the volume, otherwise the file is served. -/
def download_file (s : Sys) (file_id : Nat) (now : Int) : Except DownloadError FileData :=
  match s.db.get_file file_id with
  | none => .error .NotFound
  | some file_data =>
    if file_data.expires_at < now then .error .Expired
    else if (file_data.storage_path, file_id) ∈ s.disk then .ok file_data
    else .error .NotFound

/-- The response dictionary of `get_file_info`. -/
structure FileInfo where
  id : Nat
  original_name : String
  size : Nat
  content_type : String
  storage_location : String
  uploaded_at : Int
  expires_at : Int
  remaining_seconds : Int
  expired : Bool
deriving DecidableEq

/-- Handler `get_file_info` (GET info endpoint): `none` is the 404 case; an
existing record is always reported, with `remaining_seconds` floored at zero
and `expired` set when the remaining time is ≤ 0. -/
def get_file_info (s : Sys) (file_id : Nat) (now : Int) : Option FileInfo :=
  match s.db.get_file file_id with
  | none => none
  | some file_data =>
    let remaining := file_data.expires_at - now
    some { id := file_id, original_name := file_data.original_name
           size := file_data.size, content_type := file_data.content_type
           storage_location := file_data.storage_path
           uploaded_at := file_data.uploaded_at
           expires_at := file_data.expires_at
           remaining_seconds := max 0 remaining
           expired := decide (remaining ≤ 0) }

inductive DeleteError
  | NotFound
deriving DecidableEq

/-- Handler `delete_file` (DELETE endpoint): 404 when the record is absent;
otherwise `os.remove` is attempted with every `OSError` swallowed
(`removeFails` is the oracle for a failing unlink), then the record is
removed and the counter decremented, and success is reported. -/
def delete_file (s : Sys) (file_id : Nat) (removeFails : Bool) :
    Except DeleteError Unit × Sys :=
  match s.db.get_file file_id with
  | none => (.error .NotFound, s)
  | some file_data =>
    let disk' :=
      if removeFails then s.disk
      else removeFile (file_data.storage_path, file_id) s.disk
    (.ok (), { s with db := (s.db.delete_file file_id).1, disk := disk' })

/-- One iteration of the reaper loop body: re-fetch the record, best-effort
remove the bytes (`failIds` lists the handles whose unlink raises), then
remove the record. -/
def reap_one (failIds : List Nat) (s : Sys) (file_id : Nat) : Sys :=
  match s.db.get_file file_id with
  | none => s
  | some file_data =>
    let disk' :=
      if file_id ∈ failIds then s.disk
      else removeFile (file_data.storage_path, file_id) s.disk
    { s with db := (s.db.delete_file file_id).1, disk := disk' }

/-- Function `cleanup_expired_files`: one reaper pass over the snapshot of expired
handles. -/
def cleanup_expired_files (s : Sys) (now : Int) (failIds : List Nat) : Sys :=
  (s.db.get_expired_files now).foldl (reap_one failIds) s

/-- The operations that mutate the store, for reasoning about arbitrary
operation sequences. -/
inductive Op
  | create (chunks : List Nat) (failAt : Option Nat) (hint : Option Nat)
      (expires_in now1 now2 : Int) (fname ctype : String)
  | delete (file_id : Nat) (removeFails : Bool)
  | reap (now : Int) (failIds : List Nat)

def applyOp (s : Sys) : Op → Sys
  | .create chunks failAt hint e n1 n2 fn ct =>
    (upload_file s chunks failAt hint e n1 n2 fn ct).2
  | .delete fid rf => (delete_file s fid rf).2
  | .reap now ids => cleanup_expired_files s now ids

def runOps (s : Sys) (ops : List Op) : Sys :=
  ops.foldl applyOp s

/-- The empty store a fresh deployment starts from. -/
def initSys : Sys :=
  { db := { files := [], stats := [] }, disk := [], nextId := 0 }

/-- Number of live records assigned to a volume. -/
def countLive (files : List (Nat × FileData)) (vol : String) : Nat :=
  (files.filter (fun kv => decide (kv.2.storage_path = vol))).length

/-- The database well-formedness invariant: unique keys in both dicts, and
every volume's stored counter equal to its live-record count (an absent
entry standing for zero). -/
def goodDB (db : DB) : Prop :=
  (db.files.map Prod.fst).Nodup ∧ (db.stats.map Prod.fst).Nodup ∧
    ∀ vol, statsGet db.stats vol = (countLive db.files vol : Int)

/-- System invariant: a well-formed database plus freshness of the handle
counter. -/
def goodSys (s : Sys) : Prop :=
  goodDB s.db ∧ ∀ kv ∈ s.db.files, kv.1 < s.nextId

/-- A one-record, one-volume state used for concrete witnesses: the record
expires at time 5 and its backing file is present on the volume. -/
def fdEx : FileData :=
  { id := 0, original_name := "a", size := 1, content_type := "t"
    storage_path := "/storage", expires_at := 5, uploaded_at := 0 }

def sEx : Sys :=
  { db := { files := [(0, fdEx)], stats := [("/storage", 1)] }
    disk := [("/storage", 0)], nextId := 1 }

/-- A small successful create operation (one 100-byte chunk, ttl 3600). -/
def mkCreate : Op := .create [100] none none 3600 0 0 "a" "t"

/-- The record produced by uploading one 10-byte chunk with ttl 10 when the
clock reads 0 before streaming and 5 after. -/
def fdC6 : FileData :=
  { id := 0, original_name := "a", size := 10, content_type := "t"
    storage_path := "/storage", expires_at := 10, uploaded_at := 5 }

/-! ## Association-list lemmas -/

section AssocLemmas

variable {α β : Type} [DecidableEq α]

theorem lookupA_nil (k : α) : lookupA k ([] : List (α × β)) = none := rfl

theorem lookupA_cons (k : α) (kv : α × β) (rest : List (α × β)) :
    lookupA k (kv :: rest) = if kv.1 = k then some kv.2 else lookupA k rest := rfl

theorem insertA_nil (k : α) (v : β) : insertA k v ([] : List (α × β)) = [(k, v)] := rfl

theorem insertA_cons (k : α) (v : β) (kv : α × β) (rest : List (α × β)) :
    insertA k v (kv :: rest)
      = if kv.1 = k then (k, v) :: rest else kv :: insertA k v rest := rfl

theorem eraseA_nil (k : α) : eraseA k ([] : List (α × β)) = [] := rfl

theorem eraseA_cons (k : α) (kv : α × β) (rest : List (α × β)) :
    eraseA k (kv :: rest) = if kv.1 = k then rest else kv :: eraseA k rest := rfl

theorem lookupA_insertA_self (k : α) (v : β) (l : List (α × β)) :
    lookupA k (insertA k v l) = some v := by
  induction l with
  | nil => simp [insertA_nil, lookupA_cons]
  | cons kv rest ih =>
    rw [insertA_cons]
    by_cases hk : kv.1 = k
    · rw [if_pos hk, lookupA_cons, if_pos rfl]
    · rw [if_neg hk, lookupA_cons, if_neg hk, ih]

theorem lookupA_insertA_ne (k j : α) (v : β) (l : List (α × β)) (h : j ≠ k) :
    lookupA j (insertA k v l) = lookupA j l := by
  have hkj : ¬(k = j) := fun hh => h hh.symm
  induction l with
  | nil => simp [insertA_nil, lookupA_cons, lookupA_nil, hkj]
  | cons kv rest ih =>
    rw [insertA_cons]
    by_cases hk : kv.1 = k
    · rw [if_pos hk, lookupA_cons, lookupA_cons, if_neg hkj, if_neg (hk ▸ hkj)]
    · rw [if_neg hk, lookupA_cons, lookupA_cons, ih]

theorem lookupA_eq_none_of_keys (k : α) (l : List (α × β))
    (h : ∀ kv ∈ l, kv.1 ≠ k) : lookupA k l = none := by
  induction l with
  | nil => rfl
  | cons kv rest ih =>
    rw [lookupA_cons, if_neg (h kv (List.mem_cons_self kv rest))]
    exact ih fun kv' hkv' => h kv' (List.mem_cons_of_mem kv hkv')

theorem mem_of_lookupA_eq_some (k : α) (v : β) (l : List (α × β))
    (h : lookupA k l = some v) : (k, v) ∈ l := by
  induction l with
  | nil => simp [lookupA_nil] at h
  | cons kv rest ih =>
    rw [lookupA_cons] at h
    by_cases hk : kv.1 = k
    · rw [if_pos hk, Option.some.injEq] at h
      have : (k, v) = kv := by rw [← hk, ← h]
      rw [this]
      exact List.mem_cons_self kv rest
    · rw [if_neg hk] at h
      exact List.mem_cons_of_mem kv (ih h)

theorem lookupA_eq_none_iff (k : α) (l : List (α × β)) :
    lookupA k l = none ↔ k ∉ l.map Prod.fst := by
  induction l with
  | nil => simp [lookupA_nil]
  | cons kv rest ih =>
    rw [lookupA_cons]
    by_cases hk : kv.1 = k
    · rw [if_pos hk]
      simp [hk]
    · have hk' : ¬(k = kv.1) := fun hh => hk hh.symm
      rw [if_neg hk]
      simp [ih, hk']

theorem lookupA_ne_none_of_mem (kv : α × β) (l : List (α × β)) (h : kv ∈ l) :
    lookupA kv.1 l ≠ none := by
  intro hn
  exact (lookupA_eq_none_iff kv.1 l).mp hn (List.mem_map.mpr ⟨kv, h, rfl⟩)

theorem insertA_of_lookupA_none (k : α) (v : β) (l : List (α × β))
    (h : lookupA k l = none) : insertA k v l = l ++ [(k, v)] := by
  induction l with
  | nil => rfl
  | cons kv rest ih =>
    rw [lookupA_cons] at h
    by_cases hk : kv.1 = k
    · rw [if_pos hk] at h
      cases h
    · rw [if_neg hk] at h
      rw [insertA_cons, if_neg hk, ih h, List.cons_append]

theorem mem_keys_insertA (j k : α) (v : β) (l : List (α × β))
    (h : j ∈ (insertA k v l).map Prod.fst) : j = k ∨ j ∈ l.map Prod.fst := by
  induction l with
  | nil => simpa [insertA_nil] using h
  | cons kv rest ih =>
    rw [insertA_cons] at h
    by_cases hk : kv.1 = k
    · rw [if_pos hk] at h
      simp only [List.map_cons, List.mem_cons] at h ⊢
      rcases h with h | h
      · exact Or.inl h
      · exact Or.inr (Or.inr h)
    · rw [if_neg hk] at h
      simp only [List.map_cons, List.mem_cons] at h ⊢
      rcases h with h | h
      · exact Or.inr (Or.inl h)
      · rcases ih h with h | h
        · exact Or.inl h
        · exact Or.inr (Or.inr h)

theorem nodup_keys_insertA (k : α) (v : β) (l : List (α × β))
    (h : (l.map Prod.fst).Nodup) : ((insertA k v l).map Prod.fst).Nodup := by
  induction l with
  | nil => simp [insertA_nil]
  | cons kv rest ih =>
    simp only [List.map_cons, List.nodup_cons] at h
    rw [insertA_cons]
    by_cases hk : kv.1 = k
    · simp only [if_pos hk, List.map_cons, List.nodup_cons]
      exact ⟨hk ▸ h.1, h.2⟩
    · simp only [if_neg hk, List.map_cons, List.nodup_cons]
      refine ⟨fun hmem => ?_, ih h.2⟩
      rcases mem_keys_insertA kv.1 k v rest hmem with h1 | h1
      · exact hk h1
      · exact h.1 h1

theorem mem_of_mem_eraseA (k : α) (kv : α × β) (l : List (α × β))
    (h : kv ∈ eraseA k l) : kv ∈ l := by
  induction l with
  | nil => cases h
  | cons kv' rest ih =>
    rw [eraseA_cons] at h
    by_cases hk : kv'.1 = k
    · rw [if_pos hk] at h
      exact List.mem_cons_of_mem kv' h
    · rw [if_neg hk] at h
      rcases List.mem_cons.mp h with h | h
      · exact h ▸ List.mem_cons_self kv' rest
      · exact List.mem_cons_of_mem kv' (ih h)

theorem nodup_keys_eraseA (k : α) (l : List (α × β))
    (h : (l.map Prod.fst).Nodup) : ((eraseA k l).map Prod.fst).Nodup := by
  induction l with
  | nil => exact h
  | cons kv rest ih =>
    simp only [List.map_cons, List.nodup_cons] at h
    rw [eraseA_cons]
    by_cases hk : kv.1 = k
    · rw [if_pos hk]
      exact h.2
    · rw [if_neg hk]
      simp only [List.map_cons, List.nodup_cons]
      refine ⟨fun hmem => ?_, ih h.2⟩
      obtain ⟨kv', hkv', hfst⟩ := List.mem_map.mp hmem
      exact h.1 (List.mem_map.mpr ⟨kv', mem_of_mem_eraseA k kv' rest hkv', hfst⟩)

theorem lookupA_eraseA_self (k : α) (l : List (α × β))
    (h : (l.map Prod.fst).Nodup) : lookupA k (eraseA k l) = none := by
  induction l with
  | nil => rfl
  | cons kv rest ih =>
    simp only [List.map_cons, List.nodup_cons] at h
    rw [eraseA_cons]
    by_cases hk : kv.1 = k
    · rw [if_pos hk]
      refine lookupA_eq_none_of_keys k rest fun kv' hkv' hk' => ?_
      exact h.1 (hk ▸ hk' ▸ List.mem_map.mpr ⟨kv', hkv', rfl⟩)
    · rw [if_neg hk, lookupA_cons, if_neg hk]
      exact ih h.2

theorem lookupA_eraseA_ne (k j : α) (l : List (α × β)) (h : j ≠ k) :
    lookupA j (eraseA k l) = lookupA j l := by
  induction l with
  | nil => rfl
  | cons kv rest ih =>
    rw [eraseA_cons]
    by_cases hk : kv.1 = k
    · have : ¬(kv.1 = j) := fun hh => h ((hk ▸ hh).symm ▸ rfl)
      rw [if_pos hk, lookupA_cons, if_neg this]
    · rw [if_neg hk, lookupA_cons, lookupA_cons, ih]

theorem eraseA_eq_filter (k : α) (l : List (α × β))
    (h : (l.map Prod.fst).Nodup) :
    eraseA k l = l.filter (fun kv => decide ¬(kv.1 = k)) := by
  induction l with
  | nil => rfl
  | cons kv rest ih =>
    simp only [List.map_cons, List.nodup_cons] at h
    rw [eraseA_cons, List.filter_cons]
    by_cases hk : kv.1 = k
    · rw [if_pos hk]
      have hd : (decide ¬(kv.1 = k)) = false := by simp [hk]
      rw [hd]
      simp only [Bool.false_eq_true, if_false]
      refine (List.filter_eq_self.mpr fun kv' hkv' => ?_).symm
      have hne : ¬(kv'.1 = k) := fun hh =>
        h.1 (hk ▸ hh ▸ List.mem_map.mpr ⟨kv', hkv', rfl⟩)
      simpa using hne
    · rw [if_neg hk]
      have hd : (decide ¬(kv.1 = k)) = true := by simp [hk]
      rw [hd]
      simp only [if_true]
      rw [ih h.2]


end AssocLemmas

theorem nodup_key_inj {α β : Type} (l : List (α × β)) :
    (l.map Prod.fst).Nodup →
      ∀ kv kv', kv ∈ l → kv' ∈ l → kv.1 = kv'.1 → kv = kv' := by
  induction l with
  | nil => intro _ kv kv' h1; cases h1
  | cons x rest ih =>
    intro h kv kv' h1 h2 hk
    simp only [List.map_cons, List.nodup_cons] at h
    rcases List.mem_cons.mp h1 with h1 | h1 <;> rcases List.mem_cons.mp h2 with h2 | h2
    · rw [h1, h2]
    · exact absurd (List.mem_map.mpr ⟨kv', h2, by rw [← hk, h1]⟩) h.1
    · exact absurd (List.mem_map.mpr ⟨kv, h1, by rw [hk, h2]⟩) h.1
    · exact ih h.2 kv kv' h1 h2 hk

/-! ## Counter lemmas and the database invariant -/

theorem statsGet_insertA_self (stats : List (String × Int)) (p : String) (v : Int) :
    statsGet (insertA p v stats) p = v := by
  rw [statsGet, lookupA_insertA_self]
  rfl

theorem statsGet_insertA_ne (stats : List (String × Int)) (p q : String) (v : Int)
    (h : q ≠ p) : statsGet (insertA p v stats) q = statsGet stats q := by
  rw [statsGet, statsGet, lookupA_insertA_ne _ _ _ _ h]

theorem statsGet_eraseA_self (stats : List (String × Int)) (p : String)
    (h : (stats.map Prod.fst).Nodup) : statsGet (eraseA p stats) p = 0 := by
  rw [statsGet, lookupA_eraseA_self _ _ h]
  rfl

theorem statsGet_eraseA_ne (stats : List (String × Int)) (p q : String)
    (h : q ≠ p) : statsGet (eraseA p stats) q = statsGet stats q := by
  rw [statsGet, statsGet, lookupA_eraseA_ne _ _ _ h]

theorem countLive_nil (vol : String) : countLive [] vol = 0 := rfl

theorem countLive_cons (kv : Nat × FileData) (l : List (Nat × FileData)) (vol : String) :
    countLive (kv :: l) vol
      = (if kv.2.storage_path = vol then 1 else 0) + countLive l vol := by
  rw [countLive, countLive, List.filter_cons]
  by_cases h : kv.2.storage_path = vol
  · simp only [h, decide_True, if_true, List.length_cons]
    omega
  · simp [h]

theorem countLive_append (l1 l2 : List (Nat × FileData)) (vol : String) :
    countLive (l1 ++ l2) vol = countLive l1 vol + countLive l2 vol := by
  rw [countLive, countLive, countLive, List.filter_append, List.length_append]

theorem countLive_pos (l : List (Nat × FileData)) (k : Nat) (fd : FileData)
    (h : (k, fd) ∈ l) : 1 ≤ countLive l fd.storage_path := by
  rw [countLive]
  have : (k, fd) ∈ l.filter (fun kv => decide (kv.2.storage_path = fd.storage_path)) :=
    List.mem_filter.mpr ⟨h, by simp⟩
  exact List.length_pos.mpr (List.ne_nil_of_mem this)

theorem countLive_eraseA (l : List (Nat × FileData)) (k : Nat) (fd : FileData)
    (vol : String) (h : lookupA k l = some fd) (hnd : (l.map Prod.fst).Nodup) :
    countLive l vol
      = countLive (eraseA k l) vol + (if fd.storage_path = vol then 1 else 0) := by
  induction l with
  | nil => simp [lookupA_nil] at h
  | cons kv rest ih =>
    simp only [List.map_cons, List.nodup_cons] at hnd
    rw [lookupA_cons] at h
    rw [eraseA_cons]
    by_cases hk : kv.1 = k
    · rw [if_pos hk] at h ⊢
      rw [Option.some.injEq] at h
      rw [countLive_cons, h]
      omega
    · rw [if_neg hk] at h ⊢
      rw [countLive_cons, countLive_cons, ih h hnd.2]
      omega

theorem goodDB_init : goodDB { files := [], stats := [] } := by
  refine ⟨List.nodup_nil, List.nodup_nil, fun vol => ?_⟩
  rfl

theorem goodDB_add_file (db : DB) (fid : Nat) (fd : FileData)
    (h : goodDB db) (hf : lookupA fid db.files = none) :
    goodDB (db.add_file fid fd) := by
  obtain ⟨hnf, hns, hs⟩ := h
  rw [DB.add_file]
  have hins : insertA fid fd db.files = db.files ++ [(fid, fd)] :=
    insertA_of_lookupA_none fid fd db.files hf
  refine ⟨?_, nodup_keys_insertA _ _ _ hns, fun vol => ?_⟩
  · rw [hins, List.map_append]
    rw [List.nodup_append]
    refine ⟨hnf, by simp, fun a ha => ?_⟩
    simp only [List.map_cons, List.map_nil, List.mem_singleton]
    intro hb
    rw [hb] at ha
    exact (lookupA_eq_none_iff fid db.files).mp hf ha
  · show statsGet (insertA fd.storage_path _ db.stats) vol = _
    by_cases hv : vol = fd.storage_path
    · rw [hv, statsGet_insertA_self, hins, countLive_append, countLive_cons,
        countLive_nil]
      have hg : (lookupA fd.storage_path db.stats).getD 0
          = statsGet db.stats fd.storage_path := rfl
      rw [hg, hs fd.storage_path, if_pos rfl]
      push_cast
      ring
    · rw [statsGet_insertA_ne _ _ _ _ hv, hins, countLive_append, countLive_cons,
        countLive_nil]
      have hne : ¬(fd.storage_path = vol) := fun hh => hv hh.symm
      rw [if_neg hne, hs vol]
      push_cast
      ring

theorem goodDB_delete_file (db : DB) (fid : Nat) (h : goodDB db) :
    goodDB (db.delete_file fid).1 := by
  obtain ⟨hnf, hns, hs⟩ := h
  rw [DB.delete_file]
  cases hlook : lookupA fid db.files with
  | none => exact ⟨hnf, hns, hs⟩
  | some fd =>
    simp only
    have hmem : (fid, fd) ∈ db.files := mem_of_lookupA_eq_some _ _ _ hlook
    have hcpos : 1 ≤ countLive db.files fd.storage_path :=
      countLive_pos db.files fid fd hmem
    have hsp := hs fd.storage_path
    have hlooks : lookupA fd.storage_path db.stats
        = some (countLive db.files fd.storage_path : Int) := by
      rw [statsGet] at hsp
      cases hl : lookupA fd.storage_path db.stats with
      | none =>
        rw [hl] at hsp
        simp only [Option.getD_none] at hsp
        omega
      | some c =>
        rw [hl] at hsp
        simp only [Option.getD_some] at hsp
        rw [hsp]
    simp only [hlooks]
    have hcount := fun vol => countLive_eraseA db.files fid fd vol hlook hnf
    by_cases hz : (countLive db.files fd.storage_path : Int) - 1 ≤ 0
    · rw [if_pos hz]
      refine ⟨nodup_keys_eraseA _ _ hnf, nodup_keys_eraseA _ _ hns, fun vol => ?_⟩
      dsimp only
      by_cases hv : vol = fd.storage_path
      · rw [hv, statsGet_eraseA_self _ _ hns]
        have := hcount fd.storage_path
        rw [if_pos rfl] at this
        omega
      · rw [statsGet_eraseA_ne _ _ _ hv, hs vol]
        have := hcount vol
        have hne : ¬(fd.storage_path = vol) := fun hh => hv hh.symm
        rw [if_neg hne] at this
        omega
    · rw [if_neg hz]
      refine ⟨nodup_keys_eraseA _ _ hnf, nodup_keys_insertA _ _ _ hns, fun vol => ?_⟩
      dsimp only
      by_cases hv : vol = fd.storage_path
      · rw [hv, statsGet_insertA_self]
        have := hcount fd.storage_path
        rw [if_pos rfl] at this
        omega
      · rw [statsGet_insertA_ne _ _ _ _ hv, hs vol]
        have := hcount vol
        have hne : ¬(fd.storage_path = vol) := fun hh => hv hh.symm
        rw [if_neg hne] at this
        omega

theorem delete_file_files (db : DB) (fid : Nat) :
    (db.delete_file fid).1.files
      = match lookupA fid db.files with
        | none => db.files
        | some _ => eraseA fid db.files := by
  rw [DB.delete_file]
  cases lookupA fid db.files <;> rfl

/-! ## System-level invariant preservation -/

theorem lookupA_nextId_none (s : Sys) (h : ∀ kv ∈ s.db.files, kv.1 < s.nextId) :
    lookupA s.nextId s.db.files = none := by
  refine lookupA_eq_none_of_keys _ _ fun kv hkv hk => ?_
  have := h kv hkv
  omega

theorem mem_delete_file_files (db : DB) (fid : Nat) (kv : Nat × FileData)
    (h : kv ∈ (db.delete_file fid).1.files) : kv ∈ db.files := by
  rw [delete_file_files] at h
  cases hl : lookupA fid db.files with
  | none => simpa only [hl] using h
  | some fd =>
    simp only [hl] at h
    exact mem_of_mem_eraseA fid kv db.files h

theorem goodSys_upload (s : Sys) (chunks : List Nat) (failAt hint : Option Nat)
    (e n1 n2 : Int) (fn ct : String) (h : goodSys s) :
    goodSys (upload_file s chunks failAt hint e n1 n2 fn ct).2 := by
  obtain ⟨hdb, hfresh⟩ := h
  rw [upload_file]
  by_cases hh : size_hint_too_large hint = true
  · rw [if_pos hh]
    exact ⟨hdb, hfresh⟩
  · rw [if_neg hh]
    cases hw : write_chunks failAt chunks 0 0 with
    | error err =>
      cases err <;>
        · simp only [hw]
          exact ⟨hdb, fun kv hkv => Nat.lt_succ_of_lt (hfresh kv hkv)⟩
    | ok n =>
      simp only [hw]
      constructor
      · exact goodDB_add_file s.db s.nextId _ hdb (lookupA_nextId_none s hfresh)
      · intro kv hkv
        dsimp only [DB.add_file] at hkv
        rw [insertA_of_lookupA_none _ _ _ (lookupA_nextId_none s hfresh)] at hkv
        rcases List.mem_append.mp hkv with hkv | hkv
        · exact Nat.lt_succ_of_lt (hfresh kv hkv)
        · rcases List.mem_singleton.mp hkv with rfl
          exact Nat.lt_succ_self _

theorem goodSys_delete_route (s : Sys) (fid : Nat) (rf : Bool) (h : goodSys s) :
    goodSys (delete_file s fid rf).2 := by
  obtain ⟨hdb, hfresh⟩ := h
  rw [delete_file]
  cases hl : s.db.get_file fid with
  | none => exact ⟨hdb, hfresh⟩
  | some fd =>
    dsimp only
    exact ⟨goodDB_delete_file _ _ hdb,
      fun kv hkv => hfresh kv (mem_delete_file_files _ _ _ hkv)⟩

theorem goodSys_reap_one (failIds : List Nat) (s : Sys) (fid : Nat) (h : goodSys s) :
    goodSys (reap_one failIds s fid) := by
  obtain ⟨hdb, hfresh⟩ := h
  rw [reap_one]
  cases hl : s.db.get_file fid with
  | none => exact ⟨hdb, hfresh⟩
  | some fd =>
    dsimp only
    exact ⟨goodDB_delete_file _ _ hdb,
      fun kv hkv => hfresh kv (mem_delete_file_files _ _ _ hkv)⟩

theorem goodSys_foldl_reap (failIds : List Nat) (ids : List Nat) (s : Sys)
    (h : goodSys s) : goodSys (ids.foldl (reap_one failIds) s) := by
  induction ids generalizing s with
  | nil => exact h
  | cons i rest ih =>
    rw [List.foldl_cons]
    exact ih _ (goodSys_reap_one failIds s i h)

theorem goodSys_cleanup (s : Sys) (now : Int) (failIds : List Nat) (h : goodSys s) :
    goodSys (cleanup_expired_files s now failIds) :=
  goodSys_foldl_reap failIds _ s h

theorem goodSys_applyOp (s : Sys) (op : Op) (h : goodSys s) :
    goodSys (applyOp s op) := by
  cases op with
  | create chunks failAt hint e n1 n2 fn ct =>
    exact goodSys_upload s chunks failAt hint e n1 n2 fn ct h
  | delete fid rf => exact goodSys_delete_route s fid rf h
  | reap now ids => exact goodSys_cleanup s now ids h

theorem goodSys_init : goodSys initSys := by
  refine ⟨goodDB_init, fun kv hkv => ?_⟩
  cases hkv

theorem goodSys_runOps (ops : List Op) : goodSys (runOps initSys ops) := by
  rw [runOps]
  have h0 := goodSys_init
  generalize initSys = s at h0 ⊢
  induction ops generalizing s with
  | nil => exact h0
  | cons op rest ih =>
    rw [List.foldl_cons]
    exact ih _ (goodSys_applyOp s op h0)

/-! ## Write-loop lemmas -/

theorem write_chunks_ok (chunks : List Nat) (i acc : Nat)
    (h : acc + chunks.sum ≤ MAX_FILE_SIZE) :
    write_chunks none chunks i acc = .ok (acc + chunks.sum) := by
  induction chunks generalizing i acc with
  | nil => simp [write_chunks]
  | cons c cs ih =>
    rw [List.sum_cons] at h
    simp only [write_chunks]
    rw [if_neg (by omega), if_neg (by simp)]
    rw [ih (i + 1) (acc + c) (by omega), List.sum_cons]
    congr 1
    omega

theorem write_chunks_too_large (chunks : List Nat) (i acc : Nat)
    (hacc : acc ≤ MAX_FILE_SIZE) (h : MAX_FILE_SIZE < acc + chunks.sum) :
    write_chunks none chunks i acc = .error .TooLarge := by
  induction chunks generalizing i acc with
  | nil =>
    rw [List.sum_nil] at h
    omega
  | cons c cs ih =>
    rw [List.sum_cons] at h
    simp only [write_chunks]
    by_cases h1 : MAX_FILE_SIZE < acc + c
    · rw [if_pos h1]
    · rw [if_neg h1, if_neg (by simp)]
      exact ih (i + 1) (acc + c) (by omega) (by omega)

theorem write_chunks_io_fail (chunks : List Nat) (i acc j : Nat)
    (hj : j < chunks.length) (h : acc + chunks.sum ≤ MAX_FILE_SIZE) :
    write_chunks (some (i + j)) chunks i acc = .error .StorageError := by
  induction chunks generalizing i acc j with
  | nil => simp at hj
  | cons c cs ih =>
    rw [List.sum_cons] at h
    simp only [write_chunks]
    rw [if_neg (by omega)]
    cases j with
    | zero => rw [if_pos (by simp)]
    | succ j' =>
      rw [if_neg (by simp only [Option.some.injEq]; omega)]
      have harg : i + (j' + 1) = (i + 1) + j' := by omega
      rw [harg]
      exact ih (i + 1) (acc + c) j' (by simpa using hj) (by omega)

/-! ## Reaper-pass characterization -/

theorem reap_one_files (failIds : List Nat) (s : Sys) (fid : Nat) :
    (reap_one failIds s fid).db.files
      = match s.db.get_file fid with
        | none => s.db.files
        | some _ => eraseA fid s.db.files := by
  rw [reap_one]
  cases hl : s.db.get_file fid with
  | none => simp only [hl]
  | some fd =>
    simp only [hl]
    rw [delete_file_files]
    have hlk : lookupA fid s.db.files = some fd := hl
    simp only [hlk]

theorem foldl_reap_files (failIds : List Nat) (ids : List Nat) (s : Sys)
    (hnd : (s.db.files.map Prod.fst).Nodup) :
    (ids.foldl (reap_one failIds) s).db.files
      = s.db.files.filter (fun kv => decide (kv.1 ∉ ids)) := by
  induction ids generalizing s with
  | nil =>
    simp only [List.foldl_nil]
    refine (List.filter_eq_self.mpr fun kv _ => by simp).symm
  | cons i rest ih =>
    rw [List.foldl_cons]
    have hnd1 : ((reap_one failIds s i).db.files.map Prod.fst).Nodup := by
      rw [reap_one_files]
      cases hl : s.db.get_file i with
      | none => simp only [hl]; exact hnd
      | some fd => simp only [hl]; exact nodup_keys_eraseA _ _ hnd
    rw [ih _ hnd1, reap_one_files]
    cases hl : s.db.get_file i with
    | none =>
      simp only [hl]
      refine List.filter_congr fun kv hkv => ?_
      have hne : kv.1 ≠ i := fun hh =>
        lookupA_ne_none_of_mem kv s.db.files hkv (by rw [hh]; exact hl)
      rw [decide_eq_decide]
      simp [List.mem_cons, hne]
    | some fd =>
      simp only [hl]
      rw [eraseA_eq_filter _ _ hnd, List.filter_filter]
      refine List.filter_congr fun kv hkv => ?_
      by_cases h1 : kv.1 ∈ rest <;> by_cases h2 : kv.1 = i <;>
        simp [List.mem_cons, h1, h2]

theorem cleanup_files (s : Sys) (now : Int) (failIds : List Nat)
    (hnd : (s.db.files.map Prod.fst).Nodup) :
    (cleanup_expired_files s now failIds).db.files
      = s.db.files.filter (fun kv => decide (now ≤ kv.2.expires_at)) := by
  rw [cleanup_expired_files, foldl_reap_files _ _ _ hnd]
  refine List.filter_congr fun kv hkv => ?_
  rw [decide_eq_decide, DB.get_expired_files]
  constructor
  · intro hni
    by_contra hlt
    push_neg at hlt
    exact hni (List.mem_map.mpr
      ⟨kv, List.mem_filter.mpr ⟨hkv, by simpa using hlt⟩, rfl⟩)
  · intro hle hmem
    obtain ⟨kv', hkv', hfst⟩ := List.mem_map.mp hmem
    have hm := List.mem_filter.mp hkv'
    have heq : kv' = kv := nodup_key_inj _ hnd kv' kv hm.1 hkv hfst
    rw [heq] at hm
    have : kv.2.expires_at < now := by simpa using hm.2
    omega

theorem cleanup_noop (s : Sys) (now : Int) (failIds : List Nat)
    (h : ∀ kv ∈ s.db.files, now ≤ kv.2.expires_at) :
    cleanup_expired_files s now failIds = s := by
  rw [cleanup_expired_files, DB.get_expired_files]
  have hnil : s.db.files.filter (fun kv => decide (kv.2.expires_at < now)) = [] := by
    rw [List.filter_eq_nil_iff]
    intro kv hkv
    have := h kv hkv
    simp only [decide_eq_true_eq]
    omega
  rw [hnil]
  rfl

theorem foldl_reap_disk_mem (failIds ids : List Nat) (s : Sys) (p : String) (i : Nat)
    (hmem : (p, i) ∈ s.disk) (hi : i ∈ failIds) :
    (p, i) ∈ (ids.foldl (reap_one failIds) s).disk := by
  induction ids generalizing s with
  | nil => exact hmem
  | cons j rest ih =>
    rw [List.foldl_cons]
    refine ih _ ?_
    rw [reap_one]
    cases hl : s.db.get_file j with
    | none => exact hmem
    | some fd =>
      dsimp only
      by_cases hj : j ∈ failIds
      · rw [if_pos hj]
        exact hmem
      · rw [if_neg hj]
        refine List.mem_filter.mpr ⟨hmem, ?_⟩
        simp only [decide_eq_true_eq]
        intro hh
        injection hh with h1 h2
        exact hj (h2 ▸ hi)

theorem countLive_expired_partition (l : List (Nat × FileData)) (vol : String)
    (now : Int) :
    countLive l vol
      = countLive (l.filter (fun kv => decide (kv.2.expires_at < now))) vol
        + countLive (l.filter (fun kv => decide (now ≤ kv.2.expires_at))) vol := by
  induction l with
  | nil => rfl
  | cons kv rest ih =>
    rw [countLive_cons, List.filter_cons, List.filter_cons]
    by_cases he : kv.2.expires_at < now
    · have h1 : decide (kv.2.expires_at < now) = true := by
        simp only [decide_eq_true_eq]
        exact he
      have h2 : decide (now ≤ kv.2.expires_at) = false := by
        rw [decide_eq_false_iff_not]
        omega
      rw [h1, h2]
      simp only [if_true, Bool.false_eq_true, if_false]
      rw [countLive_cons, ih]
      omega
    · have h1 : decide (kv.2.expires_at < now) = false := by
        rw [decide_eq_false_iff_not]
        omega
      have h2 : decide (now ≤ kv.2.expires_at) = true := by
        simp only [decide_eq_true_eq]
        omega
      rw [h1, h2]
      simp only [if_true, Bool.false_eq_true, if_false]
      rw [countLive_cons, ih]
      omega

/-! ## Small helpers for the claim theorems -/

theorem not_mem_removeFile_self (x : DiskEntry) (d : List DiskEntry) :
    x ∉ removeFile x d := by
  intro h
  have := (List.mem_filter.mp h).2
  simp at this

theorem mem_touchFile_self (x : DiskEntry) (d : List DiskEntry) :
    x ∈ touchFile x d := by
  rw [touchFile]
  by_cases h : x ∈ d
  · rw [if_pos h]
    exact h
  · rw [if_neg h]
    exact List.mem_cons_self x d

theorem delete_file_not_found (s : Sys) (fid : Nat) (rf : Bool)
    (h : s.db.get_file fid = none) :
    delete_file s fid rf = (.error .NotFound, s) := by
  rw [delete_file, h]

/-! ## The claims -/

/-- C1: if the actual number of bytes streamed during create exceeds the
maximum object size (5 GiB), the create operation aborts with a `TooLarge`
error, the partial file on the chosen volume is deleted, and no metadata
record is persisted for that handle (the database is left unchanged). -/
theorem c1_stream_too_large (s : Sys) (chunks : List Nat) (hint : Option Nat)
    (ttl now1 now2 : Int) (fn ct : String)
    (hh : size_hint_too_large hint = false)
    (hbig : MAX_FILE_SIZE < chunks.sum) :
    (upload_file s chunks none hint ttl now1 now2 fn ct).1 = .error .TooLarge
    ∧ (upload_file s chunks none hint ttl now1 now2 fn ct).2.db = s.db
    ∧ (select_storage_path s.db.get_storage_stats, s.nextId)
        ∉ (upload_file s chunks none hint ttl now1 now2 fn ct).2.disk := by
  have hw : write_chunks none chunks 0 0 = .error .TooLarge :=
    write_chunks_too_large chunks 0 0 (Nat.zero_le _) (by omega)
  rw [upload_file, if_neg (by simp [hh])]
  simp only [hw]
  refine ⟨by trivial, by trivial, ?_⟩
  exact not_mem_removeFile_self _ _

/-- Witness for C1: a single chunk one byte over the maximum. -/
theorem c1_witness :
    size_hint_too_large none = false
    ∧ MAX_FILE_SIZE < ([MAX_FILE_SIZE + 1] : List Nat).sum
    ∧ (upload_file initSys [MAX_FILE_SIZE + 1] none none 3600 0 0 "a" "t").1
        = .error .TooLarge :=
  ⟨rfl, by decide,
    (c1_stream_too_large initSys [MAX_FILE_SIZE + 1] none 3600 0 0 "a" "t" rfl
      (by decide)).1⟩

/-- C2 counterexample: the claim says download fails with `Expired` exactly
when `now ≥ expires_at`, but at the boundary `now = expires_at` the code's
strict comparison (`expires_at < now`) does not fire and the file is still
served. -/
theorem c2_counterexample :
    sEx.db.get_file 0 = some fdEx
    ∧ fdEx.expires_at ≤ 5
    ∧ download_file sEx 0 5 = .ok fdEx :=
  ⟨rfl, by decide, rfl⟩

/-- C2 (amended): for an existing record, download fails with `Expired`
exactly when `now > expires_at` (strictly after expiry; at `now =
expires_at` the object is still served), and when the record exists, is not
expired in that sense, but the backing file is absent from the volume,
download fails with `NotFound`. -/
theorem c2_download (s : Sys) (fid : Nat) (fd : FileData) (now : Int)
    (h : s.db.get_file fid = some fd) :
    (download_file s fid now = .error .Expired ↔ fd.expires_at < now)
    ∧ (¬fd.expires_at < now → (fd.storage_path, fid) ∉ s.disk →
        download_file s fid now = .error .NotFound) := by
  rw [download_file]
  simp only [h]
  constructor
  · constructor
    · intro hdl
      by_contra hlt
      rw [if_neg hlt] at hdl
      by_cases hm : (fd.storage_path, fid) ∈ s.disk
      · rw [if_pos hm] at hdl
        simp at hdl
      · rw [if_neg hm] at hdl
        simp at hdl
    · intro hlt
      rw [if_pos hlt]
  · intro hlt hm
    rw [if_neg hlt, if_neg hm]

/-- Witness for C2 at a concrete expired record. -/
theorem c2_witness : download_file sEx 0 6 = .error .Expired :=
  (c2_download sEx 0 fdEx 6 rfl).1.mpr (by decide)

/-- C3: after any sequence of create, delete, and reap operations starting
from the empty store, every volume's stored counter equals the number of
live metadata records whose volume field is that volume, an absent counter
entry meaning zero. -/
theorem c3_volume_counters (ops : List Op) (vol : String) :
    statsGet (runOps initSys ops).db.stats vol
      = (countLive (runOps initSys ops).db.files vol : Int) :=
  (goodSys_runOps ops).1.2.2 vol

/-- C4 counterexample: the claim says a reaper pass reclaims exactly the
records with `expires_at ≤ now`, but a record whose `expires_at` equals
`now` is NOT reclaimed (the code's selection is the strict
`expires_at < now`). -/
theorem c4_counterexample :
    fdEx.expires_at ≤ 5
    ∧ (cleanup_expired_files sEx 5 []).db.get_file 0 = some fdEx :=
  ⟨by decide, rfl⟩

/-- C4 (amended): on any reachable store, a single reaper pass reclaims
exactly the records with `expires_at < now` (strictly earlier; a record
with `expires_at = now` survives): the surviving records are precisely the
non-expired ones in their original order, each volume's counter drops by
exactly the number of expired records on that volume, and a pass with no
expired record leaves the whole state unchanged. -/
theorem c4_reaper_pass (ops : List Op) (now : Int) (failIds : List Nat) :
    ((cleanup_expired_files (runOps initSys ops) now failIds).db.files
        = (runOps initSys ops).db.files.filter
            (fun kv => decide (now ≤ kv.2.expires_at)))
    ∧ (∀ vol,
        statsGet (cleanup_expired_files (runOps initSys ops) now failIds).db.stats vol
          = statsGet (runOps initSys ops).db.stats vol
            - (countLive ((runOps initSys ops).db.files.filter
                (fun kv => decide (kv.2.expires_at < now))) vol : Int))
    ∧ ((∀ kv ∈ (runOps initSys ops).db.files, now ≤ kv.2.expires_at) →
        cleanup_expired_files (runOps initSys ops) now failIds = runOps initSys ops) := by
  have hg := goodSys_runOps ops
  have hnd := hg.1.1
  have hfiles := cleanup_files (runOps initSys ops) now failIds hnd
  refine ⟨hfiles, fun vol => ?_, fun h => cleanup_noop _ _ _ h⟩
  have hg' := goodSys_cleanup (runOps initSys ops) now failIds hg
  have h1 := hg'.1.2.2 vol
  have h2 := hg.1.2.2 vol
  rw [h1, h2, hfiles]
  have hpart := countLive_expired_partition (runOps initSys ops).db.files vol now
  omega

/-- Witness for C4: a pass over the freshly initialized store changes
nothing. -/
theorem c4_witness :
    cleanup_expired_files (runOps initSys []) 0 [] = runOps initSys [] :=
  (c4_reaper_pass [] 0 []).2.2 (by decide)

/-- C5 counterexample: the claim says an I/O failure during the write
best-effort removes the partial file, but after an `IOError` on the first
chunk the partial file is still present on the chosen volume (the handler
only re-raises; it never unlinks). -/
theorem c5_counterexample :
    (upload_file initSys [10] (some 0) none 3600 0 0 "a" "t").1
      = .error .StorageError
    ∧ ("/storage", 0) ∈ (upload_file initSys [10] (some 0) none 3600 0 0 "a" "t").2.disk
    ∧ (upload_file initSys [10] (some 0) none 3600 0 0 "a" "t").2.db.files = [] :=
  ⟨rfl, by decide, rfl⟩

/-- C5 (amended): on any I/O failure while writing the uploaded bytes, the
create operation aborts with a storage error and persists no metadata
record, but the partial file is left behind on the chosen volume — the
exception handler does not remove it. -/
theorem c5_io_failure (s : Sys) (chunks : List Nat) (hint : Option Nat)
    (ttl now1 now2 : Int) (fn ct : String) (j : Nat)
    (hh : size_hint_too_large hint = false)
    (hsum : chunks.sum ≤ MAX_FILE_SIZE) (hj : j < chunks.length) :
    (upload_file s chunks (some j) hint ttl now1 now2 fn ct).1
      = .error .StorageError
    ∧ (upload_file s chunks (some j) hint ttl now1 now2 fn ct).2.db = s.db
    ∧ (select_storage_path s.db.get_storage_stats, s.nextId)
        ∈ (upload_file s chunks (some j) hint ttl now1 now2 fn ct).2.disk := by
  have hw : write_chunks (some j) chunks 0 0 = .error .StorageError := by
    have h0 := write_chunks_io_fail chunks 0 0 j hj (by omega)
    simpa using h0
  rw [upload_file, if_neg (by simp [hh])]
  simp only [hw]
  refine ⟨by trivial, by trivial, ?_⟩
  exact mem_touchFile_self _ _

/-- Witness for C5: IOError on the first chunk of a small upload. -/
theorem c5_witness :
    (upload_file initSys [10] (some 0) none 60 0 0 "b" "t").1
      = .error .StorageError :=
  (c5_io_failure initSys [10] none 60 0 0 "b" "t" 0 rfl (by decide) (by decide)).1

/-- C6 counterexample: the claim says `expires_at = created_at + ttl`, but
`expires_at` is computed from the clock read before streaming while the
persisted `uploaded_at` (the creation timestamp) is read after streaming;
when the clock advances from 0 to 5 during a ttl-10 upload, the record has
`expires_at = 10 ≠ uploaded_at + ttl = 15`. -/
theorem c6_counterexample :
    (upload_file initSys [10] none none 10 0 5 "a" "t").1 = .ok fdC6
    ∧ fdC6.expires_at ≠ fdC6.uploaded_at + 10 :=
  ⟨rfl, by decide⟩

/-- C6 (amended): every successfully persisted record has `expires_at`
equal to the pre-streaming clock reading plus the requested ttl, and
`uploaded_at` equal to the post-streaming clock reading; hence when the
clock does not go backwards, `expires_at ≤ created_at + ttl`, with equality
only when no time elapses during streaming. -/
theorem c6_expires_at (s : Sys) (chunks : List Nat) (failAt hint : Option Nat)
    (ttl now1 now2 : Int) (fn ct : String) (fd : FileData)
    (h : (upload_file s chunks failAt hint ttl now1 now2 fn ct).1 = .ok fd) :
    fd.expires_at = now1 + ttl ∧ fd.uploaded_at = now2
    ∧ (now1 ≤ now2 → fd.expires_at ≤ fd.uploaded_at + ttl) := by
  rw [upload_file] at h
  by_cases hh : size_hint_too_large hint = true
  · rw [if_pos hh] at h
    simp at h
  · rw [if_neg hh] at h
    cases hw : write_chunks failAt chunks 0 0 with
    | error err =>
      cases err <;> (simp only [hw] at h; simp at h)
    | ok n =>
      simp only [hw] at h
      simp only [Except.ok.injEq] at h
      rw [← h]
      refine ⟨rfl, rfl, fun hle => ?_⟩
      dsimp only
      omega

/-- Witness for C6 at the concrete record of the counterexample. -/
theorem c6_witness :
    fdC6.expires_at = 0 + 10 ∧ fdC6.uploaded_at = 5
    ∧ fdC6.expires_at ≤ fdC6.uploaded_at + 10 := by
  have h := c6_expires_at initSys [10] none none 10 0 5 "a" "t" fdC6 rfl
  exact ⟨h.1, h.2.1, h.2.2 (by decide)⟩

/-- Closed form of the placement decision over the three configured
volumes: Python's `min` keeps the earlier item on ties. -/
theorem select_storage_path_eq (stats : List (String × Int)) :
    select_storage_path stats =
      if statsGet stats "/storage2" < statsGet stats "/storage" then
        (if statsGet stats "/storage3" < statsGet stats "/storage2"
          then "/storage3" else "/storage2")
      else
        (if statsGet stats "/storage3" < statsGet stats "/storage"
          then "/storage3" else "/storage") := by
  simp only [select_storage_path, STORAGE_PATHS, List.map_cons, List.map_nil, minPair]
  split_ifs <;> rfl

/-- C7: `select_storage_path` always returns the configured volume with the
fewest live objects according to the current counters, breaking ties by
declaration order of the configured volume list; and starting from the
three configured volumes all at zero count, three sequential creates place
exactly one object on each volume. -/
theorem c7_placement :
    (∀ stats : List (String × Int),
      select_storage_path stats ∈ STORAGE_PATHS
      ∧ (∀ p ∈ STORAGE_PATHS,
          statsGet stats (select_storage_path stats) ≤ statsGet stats p)
      ∧ (statsGet stats "/storage" ≤ statsGet stats "/storage2" →
          statsGet stats "/storage" ≤ statsGet stats "/storage3" →
          select_storage_path stats = "/storage")
      ∧ (statsGet stats "/storage2" < statsGet stats "/storage" →
          statsGet stats "/storage2" ≤ statsGet stats "/storage3" →
          select_storage_path stats = "/storage2")
      ∧ (statsGet stats "/storage3" < statsGet stats "/storage" →
          statsGet stats "/storage3" < statsGet stats "/storage2" →
          select_storage_path stats = "/storage3"))
    ∧ ((runOps initSys [mkCreate, mkCreate, mkCreate]).db.files.map
        (fun kv => kv.2.storage_path) = STORAGE_PATHS)
    ∧ (∀ p ∈ STORAGE_PATHS,
        statsGet (runOps initSys [mkCreate, mkCreate, mkCreate]).db.stats p = 1) := by
  refine ⟨fun stats => ?_, by decide, by decide⟩
  have hsel := select_storage_path_eq stats
  refine ⟨?_, ?_, ?_, ?_, ?_⟩
  · rw [hsel]
    split_ifs <;> simp [STORAGE_PATHS]
  · intro p hp
    rw [hsel]
    rw [STORAGE_PATHS] at hp
    simp only [List.mem_cons, List.not_mem_nil, or_false] at hp
    split_ifs with h1 h2 <;> rcases hp with rfl | rfl | rfl <;> omega
  · intro ha1 ha2
    rw [hsel, if_neg (by omega), if_neg (by omega)]
  · intro hb1 hb2
    rw [hsel, if_pos hb1, if_neg (by omega)]
  · intro hc1 hc2
    rw [hsel]
    by_cases h1 : statsGet stats "/storage2" < statsGet stats "/storage"
    · rw [if_pos h1, if_pos hc2]
    · rw [if_neg h1, if_pos hc1]

/-- Witness for C7: on all-zero counters the first configured volume wins
the tie. -/
theorem c7_witness : select_storage_path [] = "/storage" :=
  (c7_placement.1 []).2.2.1 (by decide) (by decide)

/-- C8: delete fails with `NotFound` when no record exists for the handle;
when a record exists it removes the backing bytes best-effort (a missing
file or a failing unlink is not an error), removes the record, and
decrements the volume counter, so that an immediately following
`get_file_info` reports `NotFound` (none) and a second delete of the same
handle returns `NotFound` with the state untouched. -/
theorem c8_delete (s : Sys) (fid : Nat) (rf : Bool) (now : Int) :
    (s.db.get_file fid = none → delete_file s fid rf = (.error .NotFound, s))
    ∧ (∀ fd, s.db.get_file fid = some fd →
        (s.db.files.map Prod.fst).Nodup →
        (s.db.stats.map Prod.fst).Nodup →
        1 ≤ statsGet s.db.stats fd.storage_path →
        (delete_file s fid rf).1 = .ok ()
        ∧ (delete_file s fid rf).2.db.get_file fid = none
        ∧ get_file_info (delete_file s fid rf).2 fid now = none
        ∧ delete_file (delete_file s fid rf).2 fid rf
            = (.error .NotFound, (delete_file s fid rf).2)
        ∧ statsGet (delete_file s fid rf).2.db.stats fd.storage_path
            = statsGet s.db.stats fd.storage_path - 1
        ∧ (rf = false →
            (fd.storage_path, fid) ∉ (delete_file s fid rf).2.disk)) := by
  constructor
  · intro h
    exact delete_file_not_found s fid rf h
  · intro fd h hndf hnds hc
    have hlk : lookupA fid s.db.files = some fd := h
    have hfiles2 : (delete_file s fid rf).2.db.files = eraseA fid s.db.files := by
      rw [delete_file]
      simp only [h]
      rw [delete_file_files]
      simp only [hlk]
    have hnone : (delete_file s fid rf).2.db.get_file fid = none := by
      rw [DB.get_file, hfiles2]
      exact lookupA_eraseA_self fid s.db.files hndf
    refine ⟨?_, hnone, ?_, delete_file_not_found _ fid rf hnone, ?_, ?_⟩
    · rw [delete_file]
      simp only [h]
    · rw [get_file_info, hnone]
    · rw [delete_file]
      simp only [h]
      rw [DB.delete_file]
      simp only [hlk]
      cases hl : lookupA fd.storage_path s.db.stats with
      | none =>
        rw [statsGet, hl] at hc
        simp only [Option.getD_none] at hc
        omega
      | some c =>
        have hcg : statsGet s.db.stats fd.storage_path = c := by
          rw [statsGet, hl]
          rfl
        simp only [hl]
        by_cases hz : c - 1 ≤ 0
        · rw [if_pos hz]
          rw [statsGet_eraseA_self _ _ hnds, hcg]
          rw [hcg] at hc
          omega
        · rw [if_neg hz]
          rw [statsGet_insertA_self, hcg]
    · intro hrf
      rw [delete_file]
      simp only [h, hrf]
      simp only [Bool.false_eq_true, if_false]
      exact not_mem_removeFile_self _ _

/-- Witness for C8 at the concrete one-record state. -/
theorem c8_witness :
    (delete_file sEx 0 false).1 = .ok ()
    ∧ (delete_file sEx 0 false).2.db.get_file 0 = none
    ∧ delete_file (delete_file sEx 0 false).2 0 false
        = (.error .NotFound, (delete_file sEx 0 false).2) := by
  have h := (c8_delete sEx 0 false 99).2 fdEx rfl (by decide) (by decide) (by decide)
  exact ⟨h.1, h.2.1, h.2.2.2.1⟩

/-- C9: for every existing record, inspect returns the stored metadata with
`remaining_seconds = max 0 (expires_at - now)` and an `expired` boolean that
is true exactly when the remaining time is ≤ 0 (and false exactly when a
positive number of seconds remains); in particular, past expiry inspect
still returns the metadata with `expired = true` — it never fails — while
download fails with `Expired`. -/
theorem c9_inspect (s : Sys) (fid : Nat) (fd : FileData) (now : Int)
    (h : s.db.get_file fid = some fd) :
    ∃ info, get_file_info s fid now = some info
      ∧ info.original_name = fd.original_name
      ∧ info.size = fd.size
      ∧ info.content_type = fd.content_type
      ∧ info.storage_location = fd.storage_path
      ∧ info.uploaded_at = fd.uploaded_at
      ∧ info.expires_at = fd.expires_at
      ∧ info.remaining_seconds = max 0 (fd.expires_at - now)
      ∧ (info.expired = true ↔ fd.expires_at - now ≤ 0)
      ∧ (info.expired = false ↔ 0 < info.remaining_seconds)
      ∧ (fd.expires_at < now →
          download_file s fid now = .error .Expired ∧ info.expired = true) := by
  rw [get_file_info]
  simp only [h]
  refine ⟨_, rfl, rfl, rfl, rfl, rfl, rfl, rfl, rfl, ?_, ?_, fun hlt => ⟨?_, ?_⟩⟩
  · simp only [decide_eq_true_eq]
  · simp only [decide_eq_false_iff_not, not_le, lt_max_iff, lt_sup_iff]
    omega
  · rw [download_file]
    simp only [h]
    rw [if_pos hlt]
  · simp only [decide_eq_true_eq]
    omega

/-- Witness for C9: inspecting the record two seconds past expiry still
succeeds and reports it expired. -/
theorem c9_witness :
    ∃ info, get_file_info sEx 0 7 = some info ∧ info.expired = true := by
  obtain ⟨info, hinfo, hrest⟩ := c9_inspect sEx 0 fdEx 7 rfl
  exact ⟨info, hinfo, (hrest.2.2.2.2.2.2.2.1).mpr (by decide)⟩

/-- Counter effect of a delete on the deleted record's volume: the stored
counter drops by exactly one (the entry is removed once it reaches zero,
which under the absent-means-zero reading is the same decrement), for any
outcome of the unlink. -/
theorem delete_file_stats_dec (s : Sys) (fid : Nat) (rf : Bool) (fd : FileData)
    (h : s.db.get_file fid = some fd)
    (hc : 1 ≤ statsGet s.db.stats fd.storage_path)
    (hnds : (s.db.stats.map Prod.fst).Nodup) :
    statsGet (delete_file s fid rf).2.db.stats fd.storage_path
      = statsGet s.db.stats fd.storage_path - 1 := by
  have hlk : lookupA fid s.db.files = some fd := h
  rw [delete_file]
  simp only [h]
  rw [DB.delete_file]
  simp only [hlk]
  cases hl : lookupA fd.storage_path s.db.stats with
  | none =>
    rw [statsGet, hl] at hc
    simp only [Option.getD_none] at hc
    omega
  | some c =>
    have hcg : statsGet s.db.stats fd.storage_path = c := by
      rw [statsGet, hl]
      rfl
    simp only [hl]
    by_cases hz : c - 1 ≤ 0
    · rw [if_pos hz]
      rw [statsGet_eraseA_self _ _ hnds, hcg]
      rw [hcg] at hc
      omega
    · rw [if_neg hz]
      rw [statsGet_insertA_self, hcg]

/-- Counter effect of a reaper pass on a well-formed store: every volume's
counter drops by exactly the number of expired records on that volume,
regardless of which unlinks fail. -/
theorem cleanup_stats_dec (s : Sys) (now : Int) (failIds : List Nat)
    (hg : goodSys s) (vol : String) :
    statsGet (cleanup_expired_files s now failIds).db.stats vol
      = statsGet s.db.stats vol
        - (countLive (s.db.files.filter
            (fun kv => decide (kv.2.expires_at < now))) vol : Int) := by
  have hnd := hg.1.1
  have hfiles := cleanup_files s now failIds hnd
  have hg' := goodSys_cleanup s now failIds hg
  have h1 := hg'.1.2.2 vol
  have h2 := hg.1.2.2 vol
  rw [h1, h2, hfiles]
  have hpart := countLive_expired_partition s.db.files vol now
  omega

/-- The concrete one-record state satisfies the system invariant. -/
theorem goodSys_sEx : goodSys sEx := by
  refine ⟨⟨by decide, by decide, fun vol => ?_⟩, by decide⟩
  by_cases hv : vol = "/storage"
  · rw [hv]
    rfl
  · have h1 : statsGet sEx.db.stats vol = 0 := by
      rw [statsGet, show sEx.db.stats = [("/storage", (1 : Int))] from rfl,
        lookupA_cons, if_neg (fun hh => hv hh.symm), lookupA_nil]
      rfl
    have h2 : countLive sEx.db.files vol = 0 := by
      rw [show sEx.db.files = [(0, fdEx)] from rfl, countLive_cons, countLive_nil,
        if_neg (fun hh => hv hh.symm)]
    rw [h1, h2]
    rfl

/-- C10: both delete and the reaper swallow every OS-level error from
removing the backing bytes, not only the missing-file case: the metadata
record is still removed, the counter still decremented (by one for delete;
by the number of expired records per volume for a reaper pass), delete
still reports success, and a persistently failing unlink leaves the bytes
orphaned on disk with no record referring to them. -/
theorem c10_unlink_errors_swallowed (s : Sys) (fid : Nat) (fd : FileData)
    (now : Int) (failIds : List Nat) :
    (s.db.get_file fid = some fd →
        (delete_file s fid true).1 = .ok ()
        ∧ (delete_file s fid true).2.disk = s.disk
        ∧ ((s.db.files.map Prod.fst).Nodup →
            (delete_file s fid true).2.db.get_file fid = none)
        ∧ (1 ≤ statsGet s.db.stats fd.storage_path →
            (s.db.stats.map Prod.fst).Nodup →
            statsGet (delete_file s fid true).2.db.stats fd.storage_path
              = statsGet s.db.stats fd.storage_path - 1))
    ∧ (goodSys s → s.db.get_file fid = some fd →
        fd.expires_at < now → fid ∈ failIds →
        (cleanup_expired_files s now failIds).db.get_file fid = none
        ∧ ((fd.storage_path, fid) ∈ s.disk →
            (fd.storage_path, fid) ∈ (cleanup_expired_files s now failIds).disk)
        ∧ (∀ vol, statsGet (cleanup_expired_files s now failIds).db.stats vol
            = statsGet s.db.stats vol
              - (countLive (s.db.files.filter
                  (fun kv => decide (kv.2.expires_at < now))) vol : Int))) := by
  constructor
  · intro h
    have hlk : lookupA fid s.db.files = some fd := h
    refine ⟨?_, ?_, fun hnd => ?_,
      fun hc hnds => delete_file_stats_dec s fid true fd h hc hnds⟩
    · rw [delete_file]
      simp only [h]
    · rw [delete_file]
      simp only [h]
      simp
    · rw [delete_file]
      simp only [h]
      rw [DB.get_file, delete_file_files]
      simp only [hlk]
      exact lookupA_eraseA_self fid s.db.files hnd
  · intro hg h hexp hfail
    have hnd := hg.1.1
    refine ⟨?_, ?_, fun vol => cleanup_stats_dec s now failIds hg vol⟩
    · rw [DB.get_file, cleanup_files s now failIds hnd]
      refine lookupA_eq_none_of_keys _ _ fun kv hkv hk => ?_
      have hm := List.mem_filter.mp hkv
      have hkveq : kv = (fid, fd) :=
        nodup_key_inj _ hnd kv (fid, fd) hm.1 (mem_of_lookupA_eq_some _ _ _ h) hk
      rw [hkveq] at hm
      have : now ≤ fd.expires_at := by simpa using hm.2
      omega
    · intro hdisk
      rw [cleanup_expired_files]
      exact foldl_reap_disk_mem failIds _ s _ _ hdisk hfail

/-- Witness for C10: reaping the expired record with a failing unlink
removes the record, leaves the bytes on the volume, and still drops the
volume's counter by one; deleting it with a failing unlink also succeeds
and drops the counter by one. -/
theorem c10_witness :
    (cleanup_expired_files sEx 6 [0]).db.get_file 0 = none
    ∧ ("/storage", 0) ∈ (cleanup_expired_files sEx 6 [0]).disk
    ∧ statsGet (cleanup_expired_files sEx 6 [0]).db.stats "/storage"
        = statsGet sEx.db.stats "/storage" - 1
    ∧ (delete_file sEx 0 true).1 = .ok ()
    ∧ statsGet (delete_file sEx 0 true).2.db.stats "/storage"
        = statsGet sEx.db.stats "/storage" - 1 := by
  have h := (c10_unlink_errors_swallowed sEx 0 fdEx 6 [0]).2 goodSys_sEx rfl
    (by decide) (by decide)
  have hd := (c10_unlink_errors_swallowed sEx 0 fdEx 6 [0]).1 rfl
  refine ⟨h.1, h.2.1 (by decide), ?_, hd.1, hd.2.2.2 (by decide) (by decide)⟩
  have h3 := h.2.2 "/storage"
  rw [h3, show ((countLive (sEx.db.files.filter
    (fun kv => decide (kv.2.expires_at < 6))) "/storage" : Int)) = 1 from by decide]
